import Mathlib

/-!
# Verification of the Day One → Obsidian converter core (src/converter.js)

Shallow embedding of the entry-transformation pipeline of
`src/converter.js` (class `DayOneToObsidian`).  JS strings are modelled as
`List Char` (UTF-16 surrogate pairs are out of scope: every string the
claims touch is ASCII or BMP).  JS `Map` and `Set` are modelled as
association lists with overwrite-on-set, `JSON`-level optionality as
`Option`, and a thrown exception as `Option.none` / `Except.error`.
The YAML serialisation (`window.jsyaml.dump`) and the ZIP container
(`window.JSZip`) are external collaborators, not part of src; entry file
content is therefore modelled structurally (frontmatter-relevant data plus
normalised body) rather than as serialised YAML text.
-/

namespace DayOne

/-- JS `\s` / `String.prototype.trim` white-space set (WhiteSpace ∪
LineTerminator of the ECMAScript spec). -/
def jsWhitespace (c : Char) : Bool :=
  c = ' ' ∨ c = '\t' ∨ c = '\n' ∨ c = '\r' ∨ c = Char.ofNat 0x0B ∨ c = Char.ofNat 0x0C ∨
  c = Char.ofNat 0xA0 ∨ c = Char.ofNat 0x1680 ∨
  (Char.ofNat 0x2000 ≤ c ∧ c ≤ Char.ofNat 0x200A) ∨
  c = Char.ofNat 0x2028 ∨ c = Char.ofNat 0x2029 ∨ c = Char.ofNat 0x202F ∨
  c = Char.ofNat 0x205F ∨ c = Char.ofNat 0x3000 ∨ c = Char.ofNat 0xFEFF

/-- The character class `[A-F0-9]` of `convertImageReferences`. -/
def isUpperHex (c : Char) : Bool :=
  ('0' ≤ c ∧ c ≤ '9') ∨ ('A' ≤ c ∧ c ≤ 'F')

def isDigitC (c : Char) : Bool := '0' ≤ c ∧ c ≤ '9'

/-- The backquote character (escaped by Day One). -/
def backquote : Char := Char.ofNat 96

/-- The zero-width space U+200B stripped by `convertContent`. -/
def zwsp : Char := Char.ofNat 0x200B

/-! ## Association-list model of JS `Map` (insertion order kept, set overwrites) -/

def mapSet {α : Type} (k : List Char) (v : α) :
    List (List Char × α) → List (List Char × α)
  | [] => [(k, v)]
  | (k', v') :: t => if k' = k then (k, v) :: t else (k', v') :: mapSet k v t

def mapGet {α : Type} (k : List Char) : List (List Char × α) → Option α
  | [] => none
  | (k', v) :: t => if k' = k then some v else mapGet k t

/-! ## JS truthiness helpers -/

/-- JS truthiness of a possibly-absent string (`undefined` and `""` are falsy). -/
def truthyStr : Option (List Char) → Bool
  | none => false
  | some s => ¬s.isEmpty

/-- `a || d` for a possibly-absent string `a` and a default `d`. -/
def jsOrStr (o : Option (List Char)) (d : List Char) : List Char :=
  match o with
  | none => d
  | some s => if s.isEmpty then d else s

/-! ## `hashString` — the 32-bit rolling hash used for deduplication

```js
hashString(str) {
  let hash = 0;
  for (let i = 0; i < str.length; i++) {
    const char = str.charCodeAt(i);
    hash = ((hash << 5) - hash) + char;
    hash = hash & hash; // Convert to 32bit integer
  }
  return hash.toString(16);
}
```
`<<` and `&` coerce to signed 32-bit. -/

def toInt32 (n : Int) : Int := (n + 2 ^ 31) % 2 ^ 32 - 2 ^ 31

def hashStep (h : Int) (c : Char) : Int :=
  toInt32 (toInt32 (h * 32) - h + c.toNat)

def toHexDigit (n : Nat) : Char :=
  if n < 10 then Char.ofNat (48 + n) else Char.ofNat (87 + n)

/-- Hex rendering of a natural number (fuel-driven; `fuel ≥ n` suffices). -/
def natToHexGo : Nat → Nat → List Char
  | 0, n => [toHexDigit (n % 16)]
  | fuel + 1, n =>
    if n < 16 then [toHexDigit n]
    else natToHexGo fuel (n / 16) ++ [toHexDigit (n % 16)]

/-- JS `Number.prototype.toString(16)` for a (32-bit) integer value. -/
def intToString16 (i : Int) : List Char :=
  if i < 0 then '-' :: natToHexGo i.natAbs i.natAbs else natToHexGo i.toNat i.toNat

def hashString (s : List Char) : List Char :=
  intToString16 (s.foldl hashStep 0)

/-! ## `unescapeDayoneMarkdown` — thirteen chained global replaces

Each `.replace(/\\x/g, 'x')` is a left-to-right non-overlapping global
replacement of the two-character pattern backslash-`x` by `x`. -/

/-- One global `.replace(/\\c/g, c)` pass. -/
def repl (c : Char) : List Char → List Char
  | [] => []
  | [a] => [a]
  | a :: b :: rest =>
    if a = '\\' ∧ b = c then c :: repl c rest else a :: repl c (b :: rest)

/-- The thirteen characters unescaped, in source order. -/
def dayoneMarks : List Char :=
  ['.', '-', '(', ')', '[', ']', '#', '>', '_', '*', backquote, '~', '!']

def applyRepls (rules : List Char) (t : List Char) : List Char :=
  rules.foldl (fun s c => repl c s) t

def unescapeDayoneMarkdown (t : List Char) : List Char :=
  applyRepls dayoneMarks t

/-! ## `convertImageReferences` — rewrite `![](dayone-moment://ID)` -/

structure MediaInfo where
  md5 : List Char
  type : List Char
  deriving DecidableEq, Repr

abbrev PhotoMap := List (List Char × MediaInfo)

/-- The literal 20-character head of the placeholder pattern. -/
def placeholderHead : List Char := "![](dayone-moment://".toList

/-- Try to match the regex `!\[\]\(dayone-moment:\/\/([A-F0-9]+)\)` at the
start of `cs`; on success return the captured identifier and the text
after the closing parenthesis. -/
def matchPlaceholder (cs : List Char) : Option (List Char × List Char) :=
  if placeholderHead.isPrefixOf cs then
    match (cs.drop 20).drop ((cs.drop 20).takeWhile isUpperHex).length with
    | c :: tail =>
      if c = ')' ∧ (cs.drop 20).takeWhile isUpperHex ≠ []
      then some ((cs.drop 20).takeWhile isUpperHex, tail) else none
    | [] => none
  else none

/-- Replacement text for a matched identifier. -/
def placeholderReplacement (pm : PhotoMap) (id : List Char) : List Char :=
  match mapGet id pm with
  | some media => "![[".toList ++ media.md5 ++ '.' :: media.type ++ "]]".toList
  | none => "<!-- Missing media: ".toList ++ id ++ " -->".toList

def cirGo (pm : PhotoMap) : Nat → List Char → List Char
  | 0, cs => cs
  | _ + 1, [] => []
  | fuel + 1, c :: cs =>
    match matchPlaceholder (c :: cs) with
    | some (id, rest) => placeholderReplacement pm id ++ cirGo pm fuel rest
    | none => c :: cirGo pm fuel cs

def convertImageReferences (pm : PhotoMap) (cs : List Char) : List Char :=
  cirGo pm cs.length cs

/-! ## `convertContent` -/

def stripZwsp (cs : List Char) : List Char := cs.filter (fun c => c ≠ zwsp)

def convertContent (pm : PhotoMap) (text : List Char) : List Char :=
  stripZwsp (convertImageReferences pm (unescapeDayoneMarkdown text))

/-! ## `extractTitle`

```js
const headingMatch = text.match(/^#\s+(.+?)(?:\n|\\n|$)/m);
```
Backtracking semantics of this one regex, modelled directly: at the first
line-start position holding `#`, the greedy `\s+` run is tried longest
first, `(.+?)` is lazy over non-line-terminator characters, and the tail
alternation matches `\n`, the literal two characters backslash-`n`, or a
multiline `$` (end of input or before a line terminator). -/

/-- Line terminators recognised by the JS `m` flag and by `.`'s complement. -/
def isLineTerm (c : Char) : Bool :=
  c = '\n' ∨ c = '\r' ∨ c = Char.ofNat 0x2028 ∨ c = Char.ofNat 0x2029

/-- `.` of a JS regex without the `s` flag. -/
def jsDot (c : Char) : Bool := ¬isLineTerm c

/-- Does `(?:\n|\\n|$)` (with `m`) match at the start of `rest`? -/
def termMatches : List Char → Bool
  | [] => true
  | c :: t => isLineTerm c ∨ (c = '\\' ∧ t.head? = some 'n')

/-- Lazy `(.+?)` followed by the terminator: shortest non-empty run of
`jsDot` characters after which `termMatches` holds; returns the capture. -/
def lazyContent (acc : List Char) : List Char → Option (List Char)
  | [] => none
  | c :: rest =>
    if jsDot c then
      if termMatches rest then some (acc ++ [c]) else lazyContent (acc ++ [c]) rest
    else none

/-- Greedy `\s+` with backtracking: try consuming `j` white-space
characters of `afterHash` for `j` from the maximal run length down to 1. -/
def tryWs (afterHash : List Char) : Nat → Option (List Char)
  | 0 => none
  | j + 1 =>
    match lazyContent [] (afterHash.drop (j + 1)) with
    | some g => some g
    | none => tryWs afterHash j

/-- Attempt the heading regex with the `#` already consumed; `afterHash`
must begin with at least one white-space character. -/
def tryHeadingHere (afterHash : List Char) : Option (List Char) :=
  tryWs afterHash (afterHash.takeWhile jsWhitespace).length

/-- Scan for the first match of `/^#\s+(.+?)(?:\n|\\n|$)/m`; the flag
records whether the current position is a line start. -/
def scanHeading : Bool → List Char → Option (List Char)
  | _, [] => none
  | atStart, c :: cs =>
    if atStart ∧ c = '#' then
      match tryHeadingHere cs with
      | some g => some g
      | none => scanHeading (isLineTerm c) cs
    else scanHeading (isLineTerm c) cs

/-- JS `String.prototype.trim`. -/
def trimJs (cs : List Char) : List Char :=
  ((cs.dropWhile jsWhitespace).reverse.dropWhile jsWhitespace).reverse

/-- JS `String.prototype.split(sep)` for a one-character separator. -/
def splitChAux (sep : Char) : List Char → List Char → List (List Char)
  | acc, [] => [acc.reverse]
  | acc, c :: cs =>
    if c = sep then acc.reverse :: splitChAux sep [] cs else splitChAux sep (c :: acc) cs

def splitCh (sep : Char) (cs : List Char) : List (List Char) := splitChAux sep [] cs

def splitNl (cs : List Char) : List (List Char) := splitCh '\n' cs

/-- `.replace(/!\[\]\(dayone-moment:\/\/[^)]+\)/g, '')` of the first-line
title path (note: `[^)]+`, not the upper-hex class). -/
def matchAnyPlaceholder (cs : List Char) : Option (List Char) :=
  if placeholderHead.isPrefixOf cs then
    let r := cs.drop 20
    let run := r.takeWhile (fun c => c ≠ ')')
    match r.drop run.length with
    | c :: tail => if c = ')' ∧ run ≠ [] then some tail else none
    | [] => none
  else none

def ripGo : Nat → List Char → List Char
  | 0, cs => cs
  | _ + 1, [] => []
  | fuel + 1, c :: cs =>
    match matchAnyPlaceholder (c :: cs) with
    | some rest => ripGo fuel rest
    | none => c :: ripGo fuel cs

def removeImageRefs (cs : List Char) : List Char := ripGo cs.length cs

/-- `.replace(/^#+\s*/, '')`. -/
def stripLeadingHashes (cs : List Char) : List Char :=
  if cs.head? = some '#' then (cs.dropWhile (fun c => c = '#')).dropWhile jsWhitespace
  else cs

/-- `extractTitle(text)`; `none` models a returned `null` (also for an
absent or empty `text`, both falsy). -/
def extractTitle (text? : Option (List Char)) : Option (List Char) :=
  match text? with
  | none => none
  | some text =>
    if text.isEmpty then none
    else
      match scanHeading true text with
      | some g => some (trimJs (unescapeDayoneMarkdown g))
      | none =>
        match (splitNl text).find? (fun l => ¬(trimJs l).isEmpty) with
        | none => none
        | some firstLine =>
          let title := trimJs (stripLeadingHashes (removeImageRefs firstLine))
          if title.isEmpty then none
          else some ((unescapeDayoneMarkdown title).take 50)

/-! ## `new Date(entry.creationDate).toISOString().split('T')[0]`

Modelled for UTC ISO-8601 timestamps (the format found in Day One
exports): `YYYY-MM-DD`, optionally followed by `THH:MM:SSZ` or
`THH:MM:SS.mmmZ`, with in-range calendar and clock components.  For such
strings the result is the 10-character date; `none` models every other
input, on which the JS `Date` either throws in `toISOString` (invalid
date) or falls outside the scope of this model (non-UTC or non-ISO
formats, which Day One does not produce). -/

def digitVal (c : Char) : Nat := c.toNat - 48

def isLeap (y : Nat) : Bool := y % 4 = 0 ∧ (y % 100 ≠ 0 ∨ y % 400 = 0)

def daysInMonth (y m : Nat) : Nat :=
  if m = 2 then (if isLeap y then 29 else 28)
  else if m = 4 ∨ m = 6 ∨ m = 9 ∨ m = 11 then 30
  else 31

def dateShape (d : List Char) : Bool :=
  match d with
  | [y1, y2, y3, y4, h1, m1, m2, h2, d1, d2] =>
    isDigitC y1 ∧ isDigitC y2 ∧ isDigitC y3 ∧ isDigitC y4 ∧ h1 = '-' ∧
    isDigitC m1 ∧ isDigitC m2 ∧ h2 = '-' ∧ isDigitC d1 ∧ isDigitC d2
  | _ => false

def monthDayOk (d : List Char) : Bool :=
  match d with
  | [y1, y2, y3, y4, _, m1, m2, _, d1, d2] =>
    let y := ((digitVal y1 * 10 + digitVal y2) * 10 + digitVal y3) * 10 + digitVal y4
    let m := digitVal m1 * 10 + digitVal m2
    let dd := digitVal d1 * 10 + digitVal d2
    1 ≤ m ∧ m ≤ 12 ∧ 1 ≤ dd ∧ dd ≤ daysInMonth y m
  | _ => false

def timeShape (r : List Char) : Bool :=
  match r with
  | [h1, h2, c1, m1, m2, c2, s1, s2, 'Z'] =>
    isDigitC h1 ∧ isDigitC h2 ∧ c1 = ':' ∧ isDigitC m1 ∧ isDigitC m2 ∧ c2 = ':' ∧
    isDigitC s1 ∧ isDigitC s2 ∧
    digitVal h1 * 10 + digitVal h2 ≤ 23 ∧ digitVal m1 * 10 + digitVal m2 ≤ 59 ∧
    digitVal s1 * 10 + digitVal s2 ≤ 59
  | [h1, h2, c1, m1, m2, c2, s1, s2, dot, f1, f2, f3, 'Z'] =>
    isDigitC h1 ∧ isDigitC h2 ∧ c1 = ':' ∧ isDigitC m1 ∧ isDigitC m2 ∧ c2 = ':' ∧
    isDigitC s1 ∧ isDigitC s2 ∧ dot = '.' ∧ isDigitC f1 ∧ isDigitC f2 ∧ isDigitC f3 ∧
    digitVal h1 * 10 + digitVal h2 ≤ 23 ∧ digitVal m1 * 10 + digitVal m2 ≤ 59 ∧
    digitVal s1 * 10 + digitVal s2 ≤ 59
  | _ => false

def validTimePart : List Char → Bool
  | [] => true
  | 'T' :: rest => timeShape rest
  | _ => false

def toISODateStr (s : List Char) : Option (List Char) :=
  let d := s.take 10
  if dateShape d ∧ monthDayOk d ∧ validTimePart (s.drop 10) then some d else none

/-! ## `generateFilename` -/

/-- The filesystem-hostile class `[\/\\:*?"<>|]`. -/
def hostileChar (c : Char) : Bool :=
  c = '/' ∨ c = '\\' ∨ c = ':' ∨ c = '*' ∨ c = '?' ∨ c = '"' ∨ c = '<' ∨ c = '>' ∨ c = '|'

/-- `\s+` runs collapsed to a single space (`.replace(/\s+/g, ' ')`);
the flag records whether the previous character was white space. -/
def collapseWsAux : Bool → List Char → List Char
  | _, [] => []
  | inRun, c :: cs =>
    if jsWhitespace c then
      if inRun then collapseWsAux true cs else ' ' :: collapseWsAux true cs
    else c :: collapseWsAux false cs

def collapseWs (cs : List Char) : List Char := collapseWsAux false cs

/-- The title sanitisation of `generateFilename`: hostile characters to
`-`, white-space runs to one space, trim, truncate to 50. -/
def sanitizeTitle (t : List Char) : List Char :=
  (trimJs (collapseWs (t.map (fun c => if hostileChar c then '-' else c)))).take 50

/-- JS `Set.prototype.add` on the used-filenames set. -/
def addUsed (fn : List Char) (used : List (List Char)) : List (List Char) :=
  if fn ∈ used then used else fn :: used

structure Photo where
  identifier : List Char
  md5 : List Char
  type : Option (List Char)
  deriving DecidableEq, Repr

structure WeatherSrc where
  conditionsDescription : Option (List Char) := none
  temperatureCelsius : Option ℚ := none
  relativeHumidity : Option ℚ := none
  pressureMB : Option ℚ := none
  windSpeedKPH : Option ℚ := none
  windBearing : Option ℚ := none
  visibilityKM : Option ℚ := none
  moonPhaseCode : Option (List Char) := none
  deriving DecidableEq, Repr

structure Entry where
  uuid : Option (List Char) := none
  text : Option (List Char) := none
  creationDate : Option (List Char) := none
  photos : Option (List Photo) := none
  videos : Option (List Photo) := none
  audios : Option (List Photo) := none
  pdfAttachments : Option (List Photo) := none
  weather : Option WeatherSrc := none
  deriving DecidableEq, Repr

/-- `generateFilename(entry)` together with the updated used-filename
set.  `none` models a thrown exception: `toISOString` on an invalid date,
or `entry.uuid.slice` with `entry.uuid === undefined`. -/
def generateFilename (used : List (List Char)) (e : Entry) :
    Option (List Char × List (List Char)) :=
  match toISODateStr (e.creationDate.getD []) with
  | none => none
  | some dateStr =>
    let title := extractTitle e.text
    let baseOpt : Option (List Char) :=
      match title with
      | some t => if t.isEmpty then none else some (dateStr ++ ' ' :: sanitizeTitle t)
      | none => none
    match baseOpt with
    | some base =>
      let fn := base ++ ".md".toList
      if fn ∈ used then
        match e.uuid with
        | none => none
        | some u =>
          let fn2 := base ++ " (".toList ++ u.take 8 ++ ")".toList ++ ".md".toList
          some (fn2, addUsed fn2 used)
      else some (fn, addUsed fn used)
    | none =>
      match e.uuid with
      | none => none
      | some u =>
        let base := dateStr ++ ' ' :: u.take 8
        let fn := base ++ ".md".toList
        if fn ∈ used then
          let fn2 := base ++ " (".toList ++ u.take 8 ++ ")".toList ++ ".md".toList
          some (fn2, addUsed fn2 used)
        else some (fn, addUsed fn used)

/-! ## `buildPhotoMap` — the Media Indexer -/

/-- Register one list of attachments with a default type used when the
explicit `type` field is absent or empty (`photo.type || default`). -/
def registerDefault (dflt : List Char) (pm : PhotoMap) (ps : List Photo) : PhotoMap :=
  ps.foldl (fun m p => mapSet p.identifier ⟨p.md5, jsOrStr p.type dflt⟩ m) pm

/-- Register PDF attachments; the source always stores `type: 'pdf'`,
ignoring any explicit `pdf.type`. -/
def registerPdfs (pm : PhotoMap) (ps : List Photo) : PhotoMap :=
  ps.foldl (fun m p => mapSet p.identifier ⟨p.md5, "pdf".toList⟩ m) pm

/-- `buildPhotoMap(entry)`: photos (default `jpeg`), videos (`mov`),
audios (`m4a`), then `pdfAttachments` (constant `pdf`).  An absent list is
skipped; a present empty list is truthy in JS and simply iterates zero
times. -/
def buildPhotoMap (pm : PhotoMap) (e : Entry) : PhotoMap :=
  let pm := match e.photos with
    | some ps => registerDefault "jpeg".toList pm ps
    | none => pm
  let pm := match e.videos with
    | some ps => registerDefault "mov".toList pm ps
    | none => pm
  let pm := match e.audios with
    | some ps => registerDefault "m4a".toList pm ps
    | none => pm
  match e.pdfAttachments with
  | some ps => registerPdfs pm ps
  | none => pm

/-! ## Weather block of `buildFrontmatter`

```js
if (entry.weather) {
  const w = entry.weather;
  const weather = {};
  if (w.conditionsDescription) weather.conditions = w.conditionsDescription;
  if (w.temperatureCelsius) weather.temperature_c = w.temperatureCelsius;
  if (w.relativeHumidity && w.relativeHumidity > 0) weather.humidity = w.relativeHumidity;
  if (w.pressureMB) weather.pressure_mb = w.pressureMB;
  if (w.windSpeedKPH) weather.wind_speed_kph = w.windSpeedKPH;
  if (w.windBearing) weather.wind_bearing = w.windBearing;
  if (w.visibilityKM && w.visibilityKM > 0) weather.visibility_km = w.visibilityKM;
  if (w.moonPhaseCode && MOON_PHASES[w.moonPhaseCode]) {
    weather.moon_phase = MOON_PHASES[w.moonPhaseCode];
  }
  if (Object.keys(weather).length > 0) fm.weather = weather;
}
```
JS numbers are modelled as `ℚ` (truthiness of a number: non-zero; `NaN`
is out of scope).  Other frontmatter fields are plain passthroughs or
sub-records no claim inspects and are not modelled. -/

def MOON_PHASES : List (List Char × List Char) :=
  [("new".toList, "New Moon".toList),
   ("waxing-crescent".toList, "Waxing Crescent".toList),
   ("first-quarter".toList, "First Quarter".toList),
   ("waxing-gibbous".toList, "Waxing Gibbous".toList),
   ("full".toList, "Full Moon".toList),
   ("waning-gibbous".toList, "Waning Gibbous".toList),
   ("last-quarter".toList, "Last Quarter".toList),
   ("waning-crescent".toList, "Waning Crescent".toList)]

def keepTruthyNum (o : Option ℚ) : Option ℚ :=
  match o with
  | none => none
  | some q => if q ≠ 0 then some q else none

def keepTruthyStr (o : Option (List Char)) : Option (List Char) :=
  match o with
  | none => none
  | some s => if s.isEmpty then none else some s

structure WeatherFM where
  conditions : Option (List Char)
  temperature_c : Option ℚ
  humidity : Option ℚ
  pressure_mb : Option ℚ
  wind_speed_kph : Option ℚ
  wind_bearing : Option ℚ
  visibility_km : Option ℚ
  moon_phase : Option (List Char)
  deriving DecidableEq, Repr

def weatherNonempty (w : WeatherFM) : Bool :=
  w.conditions.isSome ∨ w.temperature_c.isSome ∨ w.humidity.isSome ∨
  w.pressure_mb.isSome ∨ w.wind_speed_kph.isSome ∨ w.wind_bearing.isSome ∨
  w.visibility_km.isSome ∨ w.moon_phase.isSome

/-- `x && x > 0` guard of the humidity and visibility fields. -/
def keepPos (o : Option ℚ) : Option ℚ :=
  match o with
  | none => none
  | some q => if q ≠ 0 ∧ 0 < q then some q else none

/-- `w.moonPhaseCode && MOON_PHASES[w.moonPhaseCode]` guard. -/
def moonLookup (o : Option (List Char)) : Option (List Char) :=
  match o with
  | none => none
  | some c => if c.isEmpty then none else mapGet c MOON_PHASES

/-- The weather object assembled field by field. -/
def mkWeatherFM (w : WeatherSrc) : WeatherFM :=
  { conditions := keepTruthyStr w.conditionsDescription
    temperature_c := keepTruthyNum w.temperatureCelsius
    humidity := keepPos w.relativeHumidity
    pressure_mb := keepTruthyNum w.pressureMB
    wind_speed_kph := keepTruthyNum w.windSpeedKPH
    wind_bearing := keepTruthyNum w.windBearing
    visibility_km := keepPos w.visibilityKM
    moon_phase := moonLookup w.moonPhaseCode }

/-- The weather sub-record of the frontmatter: `some` exactly when the
source emits an `fm.weather` key. -/
def buildWeather : Option WeatherSrc → Option WeatherFM
  | none => none
  | some w => if weatherNonempty (mkWeatherFM w) then some (mkWeatherFM w) else none

abbrev SeenMap := List (List Char × List Char)

/-- `shouldSkipDuplicate(entry)`. -/
def shouldSkipDuplicate (allowDuplicates : Bool) (seen : SeenMap) (e : Entry) : Bool :=
  if allowDuplicates then false
  else if ¬truthyStr e.uuid then false
  else
    let uuid := e.uuid.getD []
    let contentHash := hashString (e.text.getD [])
    match mapGet uuid seen with
    | some h => h = contentHash
    | none => false

/-- `recordEntry(entry)`: `Map.set`, overwriting any previous hash. -/
def recordEntry (seen : SeenMap) (e : Entry) : SeenMap :=
  if ¬truthyStr e.uuid then seen
  else mapSet (e.uuid.getD []) (hashString (e.text.getD [])) seen

/-! ## The conversion run -/

/-- An output-note file's modelled content: the weather sub-record stands
in for the externally-serialised frontmatter, plus the normalised body. -/
structure NoteContent where
  weatherFm : Option WeatherFM
  body : List Char
  deriving DecidableEq, Repr

inductive OutData
  | note (n : NoteContent)
  | media (bytes : List Nat)
  deriving DecidableEq, Repr

abbrev Write := List Char × OutData

structure RunState where
  photoMap : PhotoMap := []
  usedFilenames : List (List Char) := []
  seenEntries : SeenMap := []
  skippedDuplicates : Nat := 0
  converted : Nat := 0
  writes : List Write := []
  deriving DecidableEq, Repr

/-- `convertEntry(entry)`: index media, build frontmatter, normalise the
body, resolve the filename.  `none` propagates a thrown exception from
`generateFilename`. -/
def convertEntry (st : RunState) (e : Entry) :
    Option (List Char × NoteContent × RunState) :=
  let pm := buildPhotoMap st.photoMap e
  let wfm := buildWeather e.weather
  let body := convertContent pm (e.text.getD [])
  match generateFilename st.usedFilenames e with
  | none => none
  | some (fn, used') =>
    some (fn, ⟨wfm, body⟩, { st with photoMap := pm, usedFilenames := used' })

def typeErrMsg : List Char := "TypeError".toList
def parseErrMsg : List Char := "SyntaxError: unparsable JSON".toList
def noJsonMsg : List Char := "No JSON file found in ZIP".toList

/-- One iteration of the entry loop in `convert`. -/
def convertStep (allowDuplicates : Bool) (st : RunState) (e : Entry) :
    Except (List Char) RunState :=
  if shouldSkipDuplicate allowDuplicates st.seenEntries e then
    .ok { st with skippedDuplicates := st.skippedDuplicates + 1 }
  else
    match convertEntry st e with
    | none => .error typeErrMsg
    | some (fn, note, st') =>
      let st2 := { st' with
        writes := st'.writes ++ [("entries/".toList ++ fn, OutData.note note)],
        converted := st'.converted + 1 }
      if allowDuplicates then .ok st2
      else .ok { st2 with seenEntries := recordEntry st2.seenEntries e }

def convertEntries (allowDuplicates : Bool) (st : RunState) :
    List Entry → Except (List Char) RunState
  | [] => .ok st
  | e :: es =>
    match convertStep allowDuplicates st e with
    | .error msg => .error msg
    | .ok st' => convertEntries allowDuplicates st' es

/-- The decoded journal JSON: `entries` may be absent or `null`. -/
structure JournalData where
  entries : Option (List Entry) := none
  deriving DecidableEq, Repr

/-- One file of the input ZIP as the core observes it: its path, the
directory flag, what `JSON.parse` of its text yields (`none` models a
parse error), and its raw bytes. -/
structure ZFile where
  name : List Char
  dir : Bool := false
  parsed : Option JournalData := none
  bytes : List Nat := []
  deriving DecidableEq, Repr

def mediaFolders : List (List Char) :=
  ["photos".toList, "videos".toList, "audios".toList, "pdfs".toList]

/-- `sub` occurs as a contiguous substring (JS `String.prototype.includes`). -/
def hasSub (sub : List Char) : List Char → Bool
  | [] => sub.isEmpty
  | c :: cs => sub.isPrefixOf (c :: cs) ∨ hasSub sub cs

def isMediaFile (f : ZFile) : Bool :=
  ¬f.dir ∧ mediaFolders.any (fun folder =>
    hasSub ('/' :: folder ++ ['/']) f.name ∨ (folder ++ ['/']).isPrefixOf f.name)

/-- `mediaPath.split('/').pop()`. -/
def lastSeg (name : List Char) : List Char :=
  (splitCh '/' name).getLastD []

/-- `convert(zipFile)`, after the external ZIP decode: find the journal
JSON, parse it, copy media to `attachments/`, then run the entry loop.
The returned state's `writes` lists every `outputZip.file(path, data)`
call in order; the final archive holds one file per distinct path (a
later write to the same path overwrites). -/
def mediaWritesOf (files : List ZFile) : List Write :=
  (files.filter isMediaFile).map (fun f =>
    ("attachments/".toList ++ lastSeg f.name, OutData.media f.bytes))

def convert (allowDuplicates : Bool) (files : List ZFile) :
    Except (List Char) RunState :=
  match files.filter (fun f => ".json".toList.isSuffixOf f.name) with
  | [] => .error noJsonMsg
  | jf :: _ =>
    match jf.parsed with
    | none => .error parseErrMsg
    | some journalData =>
      let entries := journalData.entries.getD []
      convertEntries allowDuplicates { writes := mediaWritesOf files } entries

/-- Paths of the `entries/` files among the writes. -/
def entryWrites (ws : List Write) : List (List Char) :=
  (ws.filter (fun w => match w.2 with | OutData.note _ => true | _ => false)).map
    (fun w => w.1)

/-! ## Tokenised view of partially-unescaped text (for the round-trip proof)

While the thirteen `repl` passes run, the text is an interleaving of
already-unescaped bare characters and still-escaped pairs; `Tok` records
that shape. -/

inductive Tok
  | pair (c : Char)
  | bare (c : Char)
  deriving DecidableEq, Repr

def tokChar : Tok → Char
  | .pair c => c
  | .bare c => c

def render : List Tok → List Char
  | [] => []
  | .pair c :: ts => '\\' :: c :: render ts
  | .bare c :: ts => c :: render ts

/-- A text consisting solely of backslash-escaped marks. -/
def escapePairs : List Char → List Char
  | [] => []
  | c :: cs => '\\' :: c :: escapePairs cs

/-! ## Concrete inputs used by the claim theorems -/

def dateOk : List Char := "2024-01-15T10:00:00Z".toList

/-- Identifier `u`, body `a`. -/
def entryUA : Entry :=
  { uuid := some "u".toList, text := some "a".toList, creationDate := some dateOk }

/-- Identifier `u`, body `b`. -/
def entryUB : Entry := { entryUA with text := some "b".toList }

/-- A titled entry; three copies collide even after disambiguation. -/
def entryT : Entry :=
  { uuid := some "AAAABBBBCCCC".toList, text := some "# T\nx".toList,
    creationDate := some dateOk }

/-- No identifier and no extractable title. -/
def entryNoId : Entry := { text := some "".toList, creationDate := some dateOk }

/-- No title, and an identifier whose 8-character fragment holds `/`. -/
def entryHostileId : Entry :=
  { uuid := some "a/bcdefgh".toList, text := some "".toList, creationDate := some dateOk }

def zipOf (es : List Entry) : List ZFile :=
  [{ name := "journal.json".toList, parsed := some { entries := some es } }]

def zipC4 : List ZFile := zipOf [entryT, entryT, entryT]

def zipC6 : List ZFile := zipOf [entryNoId, entryUA]

/-- A JSON file whose parsed record has no `entries` array. -/
def jfNoEntries : ZFile :=
  { name := "journal.json".toList, parsed := some { entries := none } }

def mediaFileC10 : ZFile := { name := "photos/deadbeef.jpeg".toList, bytes := [1, 2, 3] }

/-- Archive: a JSON file whose record has no `entries` array, plus one
media file. -/
def zipC10 : List ZFile := [jfNoEntries, mediaFileC10]

/-- The journal file of `zipOf [entryT, entryT]`. -/
def jfTwoT : ZFile :=
  { name := "journal.json".toList, parsed := some { entries := some [entryT, entryT] } }

/-- Final state of the C4 witness run (two titled entries, dedup off). -/
def stC4w : RunState :=
  (convertEntries true {} [entryT, entryT]).toOption.getD {}

/-- Dedup state in which `entryUA` is already recorded (C8 witness). -/
def stSeenUA : RunState :=
  { seenEntries := [("u".toList, hashString "a".toList)] }

/-- Dedup map holding a different hash for `u` (C1 witness). -/
def seenUB : SeenMap := [("u".toList, hashString "b".toList)]

def photoW : Photo := ⟨"P1".toList, "aaaa".toList, some "png".toList⟩
def videoW : Photo := ⟨"V1".toList, "bbbb".toList, none⟩
def audioW : Photo := ⟨"A1".toList, "cccc".toList, some "".toList⟩
def pdfW : Photo := ⟨"D1".toList, "dddd".toList, some "docx".toList⟩

/-- Entry holding one attachment of each category (C5). -/
def entryMedia : Entry :=
  { photos := some [photoW], videos := some [videoW], audios := some [audioW],
    pdfAttachments := some [pdfW] }

def textLowercaseId : List Char := "x ![](dayone-moment://abc) y".toList

def pmABC : PhotoMap := [("ABC123".toList, ⟨"f00d".toList, "jpeg".toList⟩)]

/-! # Theorems -/

/-! ## Association-list lemmas -/

theorem mapGet_set_same {α : Type} (k : List Char) (v : α) (m : List (List Char × α)) :
    mapGet k (mapSet k v m) = some v := by
  induction m with
  | nil => simp [mapSet, mapGet]
  | cons p t ih =>
    obtain ⟨k', v'⟩ := p
    by_cases h : k' = k
    · simp [mapSet, h, mapGet]
    · simp only [mapSet, if_neg h]
      simpa [mapGet, h] using ih

theorem mapGet_set_ne {α : Type} (k k₀ : List Char) (v : α) (m : List (List Char × α))
    (h : k ≠ k₀) : mapGet k₀ (mapSet k v m) = mapGet k₀ m := by
  induction m with
  | nil => simp [mapSet, mapGet, h]
  | cons p t ih =>
    obtain ⟨k', v'⟩ := p
    by_cases hk : k' = k
    · subst hk
      simp [mapSet, mapGet, h]
    · simp only [mapSet, if_neg hk]
      by_cases hk0 : k' = k₀
      · simp [mapGet, hk0]
      · simpa [mapGet, hk0] using ih

/-! ## Lemmas on the unescaping passes -/

theorem repl_cons_of_ne (c a : Char) (ha : a ≠ '\\') (xs : List Char) :
    repl c (a :: xs) = a :: repl c xs := by
  cases xs with
  | nil => simp [repl]
  | cons b rest => simp [repl, ha]

theorem repl_no_backslash (c : Char) (xs : List Char) (h : ∀ a ∈ xs, a ≠ '\\') :
    repl c xs = xs := by
  induction xs with
  | nil => simp [repl]
  | cons a rest ih =>
    rw [repl_cons_of_ne c a (h a (by simp)) rest]
    rw [ih (fun a ha => h a (by simp [ha]))]

theorem applyRepls_no_backslash (rules : List Char) (xs : List Char)
    (h : ∀ a ∈ xs, a ≠ '\\') : applyRepls rules xs = xs := by
  induction rules with
  | nil => rfl
  | cons c rest ih =>
    show applyRepls rest (repl c xs) = xs
    rw [repl_no_backslash c xs h, ih]

/-- Effect of one `repl` pass on a rendered token list. -/
theorem repl_render (c : Char) (its : List Tok) (h : ∀ t ∈ its, tokChar t ≠ '\\') :
    repl c (render its) =
      render (its.map (fun t => match t with
        | .pair m => if m = c then .bare m else .pair m
        | .bare m => .bare m)) := by
  induction its with
  | nil => simp [render, repl]
  | cons t ts ih =>
    have hts : ∀ t ∈ ts, tokChar t ≠ '\\' := fun t ht => h t (by simp [ht])
    cases t with
    | pair m =>
      by_cases hm : m = c
      · subst hm
        simp only [render, List.map_cons, if_pos rfl]
        rw [show repl m ('\\' :: m :: render ts) = m :: repl m (render ts) by
          simp [repl]]
        rw [ih hts]
      · have hmb : m ≠ '\\' := h (.pair m) (by simp)
        simp only [render, List.map_cons, if_neg hm]
        rw [show repl c ('\\' :: m :: render ts) = '\\' :: repl c (m :: render ts) by
          simp [repl, hm]]
        rw [repl_cons_of_ne c m hmb, ih hts]
    | bare m =>
      have hmb : m ≠ '\\' := h (.bare m) (by simp)
      simp only [render, List.map_cons]
      rw [repl_cons_of_ne c m hmb, ih hts]

theorem applyRepls_render (rules : List Char) (its : List Tok)
    (h : ∀ t ∈ its, tokChar t ≠ '\\') :
    applyRepls rules (render its) =
      render (its.map (fun t => match t with
        | .pair m => if m ∈ rules then .bare m else .pair m
        | .bare m => .bare m)) := by
  induction rules generalizing its with
  | nil =>
    show render its = _
    congr 1
    rw [show (fun t : Tok => match t with
        | .pair m => if m ∈ ([] : List Char) then Tok.bare m else Tok.pair m
        | .bare m => Tok.bare m) = id from funext fun t => by cases t <;> simp]
    simp
  | cons c rest ih =>
    show applyRepls rest (repl c (render its)) = _
    rw [repl_render c its h]
    rw [ih _ (by
      intro t ht
      simp only [List.mem_map] at ht
      obtain ⟨t₀, ht₀, rfl⟩ := ht
      have := h t₀ ht₀
      cases t₀ with
      | pair m =>
        by_cases hm : m = c <;> simp [hm, tokChar] at this ⊢ <;> exact this
      | bare m => simpa [tokChar] using this)]
    rw [List.map_map]
    congr 1
    apply List.map_congr_left
    intro t _
    cases t with
    | pair m =>
      by_cases hm : m = c
      · subst hm
        simp
      · by_cases hr : m ∈ rest <;> simp [hm, hr]
    | bare m => simp

theorem escapePairs_eq_render (ps : List Char) :
    escapePairs ps = render (ps.map Tok.pair) := by
  induction ps with
  | nil => rfl
  | cons c cs ih => simp [escapePairs, render, ih]

theorem render_all_bare (ps : List Char) : render (ps.map Tok.bare) = ps := by
  induction ps with
  | nil => rfl
  | cons c cs ih => simp [render, ih]

theorem marks_no_backslash : ∀ m ∈ dayoneMarks, m ≠ '\\' := by decide

/-- A single unescaping pass over a pure escape-pair text yields the marks. -/
theorem unescape_escapePairs (ps : List Char) (h : ∀ c ∈ ps, c ∈ dayoneMarks) :
    unescapeDayoneMarkdown (escapePairs ps) = ps := by
  rw [unescapeDayoneMarkdown, escapePairs_eq_render]
  rw [applyRepls_render dayoneMarks (ps.map Tok.pair) (by
    intro t ht
    simp only [List.mem_map] at ht
    obtain ⟨c, hc, rfl⟩ := ht
    simpa [tokChar] using marks_no_backslash c (h c hc))]
  rw [List.map_map]
  rw [List.map_congr_left (g := Tok.bare) (by
    intro c hc
    simp [h c hc])]
  exact render_all_bare ps

theorem unescape_of_no_backslash (xs : List Char) (h : ∀ a ∈ xs, a ≠ '\\') :
    unescapeDayoneMarkdown xs = xs :=
  applyRepls_no_backslash dayoneMarks xs h

/-! ## Lemmas on the image-reference scanner -/

theorem matchPlaceholder_length {cs id rest : List Char}
    (h : matchPlaceholder cs = some (id, rest)) : rest.length < cs.length := by
  unfold matchPlaceholder at h
  by_cases hp : placeholderHead.isPrefixOf cs
  · rw [if_pos hp] at h
    have hlen : 20 ≤ cs.length := by
      have := (List.isPrefixOf_iff_prefix.mp hp).length_le
      simpa [placeholderHead] using this
    have hrlen : (cs.drop 20).length = cs.length - 20 := by simp
    cases hd : (cs.drop 20).drop ((cs.drop 20).takeWhile isUpperHex).length with
    | nil => rw [hd] at h; exact absurd h (by simp)
    | cons c tail =>
      rw [hd] at h
      dsimp only at h
      by_cases hc : c = ')' ∧ (cs.drop 20).takeWhile isUpperHex ≠ []
      · rw [if_pos hc] at h
        obtain ⟨rfl, rfl⟩ : (cs.drop 20).takeWhile isUpperHex = id ∧ tail = rest := by
          simpa using h
        have h1 : tail.length + 1 ≤ (cs.drop 20).length := by
          have := congrArg List.length hd
          simp only [List.length_drop, List.length_cons] at this
          omega
        omega
      · rw [if_neg hc] at h; exact absurd h (by simp)
  · rw [if_neg hp] at h; exact absurd h (by simp)

theorem cirGo_congr (pm : PhotoMap) :
    ∀ (n m : Nat) (cs : List Char), cs.length ≤ n → cs.length ≤ m →
      cirGo pm n cs = cirGo pm m cs := by
  intro n
  induction n with
  | zero =>
    intro m cs hn _
    have : cs = [] := List.length_eq_zero.mp (Nat.le_zero.mp hn)
    subst this
    cases m <;> rfl
  | succ n ih =>
    intro m cs hn hm
    cases cs with
    | nil => cases m <;> rfl
    | cons c cs' =>
      cases m with
      | zero => simp at hm
      | succ m' =>
        simp only [List.length_cons, Nat.succ_le_succ_iff] at hn hm
        show cirGo pm (n + 1) (c :: cs') = cirGo pm (m' + 1) (c :: cs')
        simp only [cirGo]
        cases hmp : matchPlaceholder (c :: cs') with
        | none =>
          show c :: cirGo pm n cs' = c :: cirGo pm m' cs'
          rw [ih m' cs' hn hm]
        | some p =>
          obtain ⟨id, rest⟩ := p
          have hlt := matchPlaceholder_length hmp
          simp only [List.length_cons] at hlt
          show placeholderReplacement pm id ++ cirGo pm n rest =
            placeholderReplacement pm id ++ cirGo pm m' rest
          rw [ih m' rest (by omega) (by omega)]

theorem cir_step_match (pm : PhotoMap) {cs id rest : List Char}
    (h : matchPlaceholder cs = some (id, rest)) :
    convertImageReferences pm cs =
      placeholderReplacement pm id ++ convertImageReferences pm rest := by
  cases cs with
  | nil =>
    rw [show matchPlaceholder [] = none from rfl] at h
    simp at h
  | cons c cs' =>
    have hlt := matchPlaceholder_length h
    simp only [List.length_cons] at hlt
    show cirGo pm (c :: cs').length (c :: cs') = _
    simp only [List.length_cons, cirGo, h]
    rw [cirGo_congr pm cs'.length rest.length rest (by omega) (le_refl _)]
    rfl

theorem cir_step_nomatch (pm : PhotoMap) {c : Char} {cs : List Char}
    (h : matchPlaceholder (c :: cs) = none) :
    convertImageReferences pm (c :: cs) = c :: convertImageReferences pm cs := by
  show cirGo pm (c :: cs).length (c :: cs) = _
  simp only [List.length_cons, cirGo, h]
  rfl

theorem takeWhile_append_stop {p : Char → Bool} {id : List Char} {x : Char}
    {r : List Char} (hid : ∀ c ∈ id, p c = true) (hx : p x = false) :
    (id ++ x :: r).takeWhile p = id := by
  induction id with
  | nil => simp [List.takeWhile_cons, hx]
  | cons c cs ih =>
    have hc : p c = true := hid c (by simp)
    rw [List.cons_append, List.takeWhile_cons, hc]
    simp only [if_true]
    rw [ih (fun c hc' => hid c (by simp [hc']))]

/-- The regex matches exactly at a well-formed placeholder. -/
theorem matchPlaceholder_at (id rest : List Char) (hid : id ≠ [])
    (hhex : ∀ c ∈ id, isUpperHex c = true) :
    matchPlaceholder (placeholderHead ++ id ++ ')' :: rest) = some (id, rest) := by
  have hpre : placeholderHead.isPrefixOf (placeholderHead ++ (id ++ ')' :: rest)) :=
    List.isPrefixOf_iff_prefix.mpr (List.prefix_append _ _)
  unfold matchPlaceholder
  rw [List.append_assoc]
  rw [if_pos hpre]
  have hdrop : (placeholderHead ++ (id ++ ')' :: rest)).drop 20 = id ++ ')' :: rest :=
    List.drop_left' (by decide)
  rw [hdrop]
  rw [takeWhile_append_stop hhex (by decide)]
  rw [List.drop_left]
  simp [hid]

/-- Text at no position of which the placeholder regex matches is left
unchanged by the rewrite. -/
theorem cir_id (pm : PhotoMap) (text : List Char)
    (h : ∀ v ∈ text.tails, matchPlaceholder v = none) :
    convertImageReferences pm text = text := by
  induction text with
  | nil => rfl
  | cons c cs ih =>
    have h0 : matchPlaceholder (c :: cs) = none :=
      h (c :: cs) ((List.mem_tails _ _).mpr (List.suffix_refl _))
    rw [cir_step_nomatch pm h0]
    rw [ih (fun v hv => h v ((List.mem_tails _ _).mpr
      ((List.mem_tails _ _).mp hv |>.trans (List.suffix_cons c cs))))]

/-! ## Lemmas on the conversion run -/

theorem convertEntry_frame {st : RunState} {e : Entry} {fn : List Char}
    {note : NoteContent} {st' : RunState}
    (h : convertEntry st e = some (fn, note, st')) :
    st'.writes = st.writes ∧ st'.converted = st.converted ∧
      st'.skippedDuplicates = st.skippedDuplicates ∧
      st'.seenEntries = st.seenEntries := by
  unfold convertEntry at h
  cases hg : generateFilename st.usedFilenames e with
  | none => rw [hg] at h; simp at h
  | some p =>
    obtain ⟨fn0, used'⟩ := p
    rw [hg] at h
    dsimp only at h
    have h2 := Option.some.inj h
    have hst := congrArg (fun p : List Char × NoteContent × RunState => p.2.2) h2
    dsimp only at hst
    rw [← hst]
    exact ⟨rfl, rfl, rfl, rfl⟩

theorem convertStep_error {ad : Bool} {st : RunState} {e : Entry} {msg : List Char}
    (h : convertStep ad st e = .error msg) : msg = typeErrMsg := by
  unfold convertStep at h
  by_cases hs : shouldSkipDuplicate ad st.seenEntries e = true
  · rw [if_pos hs] at h; simp at h
  · rw [if_neg hs] at h
    cases hc : convertEntry st e with
    | none => rw [hc] at h; simpa using h.symm
    | some p =>
      obtain ⟨fn, note, st'⟩ := p
      rw [hc] at h
      dsimp only at h
      by_cases had : ad = true
      · rw [if_pos had] at h; simp at h
      · rw [if_neg had] at h; simp at h

theorem convertEntries_error {ad : Bool} {msg : List Char} :
    ∀ (es : List Entry) (st : RunState),
      convertEntries ad st es = .error msg → msg = typeErrMsg := by
  intro es
  induction es with
  | nil => intro st h; simp [convertEntries] at h
  | cons e es ih =>
    intro st h
    unfold convertEntries at h
    cases hs : convertStep ad st e with
    | error m => rw [hs] at h; cases h; exact convertStep_error hs
    | ok st' => rw [hs] at h; exact ih st' h

theorem entryWrites_append (ws ws' : List Write) :
    entryWrites (ws ++ ws') = entryWrites ws ++ entryWrites ws' := by
  simp [entryWrites, List.filter_append]

/-- With deduplication disabled every entry of a successful run is
converted and counted, none is skipped, and exactly one `entries/` write
is issued per entry. -/
theorem convertEntries_true_counts :
    ∀ (es : List Entry) (st0 st : RunState),
      convertEntries true st0 es = .ok st →
      st.converted = st0.converted + es.length ∧
      st.skippedDuplicates = st0.skippedDuplicates ∧
      (entryWrites st.writes).length = (entryWrites st0.writes).length + es.length := by
  intro es
  induction es with
  | nil =>
    intro st0 st h
    obtain rfl : st0 = st := by simpa [convertEntries] using h
    simp
  | cons e es ih =>
    intro st0 st h
    unfold convertEntries at h
    have hstep : convertStep true st0 e =
        match convertEntry st0 e with
        | none => .error typeErrMsg
        | some (fn, note, st') =>
          .ok { st' with
            writes := st'.writes ++ [("entries/".toList ++ fn, OutData.note note)],
            converted := st'.converted + 1 } := by
      simp [convertStep, shouldSkipDuplicate]
    rw [hstep] at h
    cases hc : convertEntry st0 e with
    | none => rw [hc] at h; simp at h
    | some p =>
      obtain ⟨fn, note, st'⟩ := p
      rw [hc] at h
      dsimp only at h
      obtain ⟨hw, hcv, hsk, _⟩ := convertEntry_frame hc
      obtain ⟨h1, h2, h3⟩ := ih _ st h
      refine ⟨?_, ?_, ?_⟩
      · simp only [h1]; simp [hcv]; omega
      · simp only [h2]; simp [hsk]
      · simp only [h3]
        simp [hw, entryWrites_append, entryWrites]
        omega

/-! ## Lemmas on filename sanitisation -/

theorem digit_not_hostile (c : Char) (h : isDigitC c = true) : hostileChar c = false := by
  cases hh : hostileChar c
  · rfl
  · exfalso
    have hc : c = '/' ∨ c = '\\' ∨ c = ':' ∨ c = '*' ∨ c = '?' ∨ c = '"' ∨ c = '<' ∨
        c = '>' ∨ c = '|' := by simpa [hostileChar] using hh
    rcases hc with rfl | rfl | rfl | rfl | rfl | rfl | rfl | rfl | rfl <;>
      exact absurd h (by decide)

theorem hostile_append {xs ys : List Char}
    (hx : ∀ c ∈ xs, hostileChar c = false) (hy : ∀ c ∈ ys, hostileChar c = false) :
    ∀ c ∈ xs ++ ys, hostileChar c = false := by
  intro c hc
  rcases List.mem_append.mp hc with h | h
  exacts [hx c h, hy c h]

theorem hostile_cons {x : Char} {ys : List Char} (hx : hostileChar x = false)
    (hy : ∀ c ∈ ys, hostileChar c = false) :
    ∀ c ∈ x :: ys, hostileChar c = false := by
  intro c hc
  rcases List.mem_cons.mp hc with rfl | h
  exacts [hx, hy c h]

theorem toISODateStr_not_hostile {s d : List Char} (h : toISODateStr s = some d) :
    ∀ c ∈ d, hostileChar c = false := by
  unfold toISODateStr at h
  by_cases hv : (dateShape (s.take 10) = true ∧ monthDayOk (s.take 10) = true ∧
      validTimePart (s.drop 10) = true)
  · rw [if_pos (by simpa using hv)] at h
    obtain rfl : s.take 10 = d := by simpa using h
    have hds := hv.1
    unfold dateShape at hds
    split at hds
    · next y1 y2 y3 y4 h1 m1 m2 h2 d1 d2 heq =>
      rw [heq]
      have hc : isDigitC y1 ∧ isDigitC y2 ∧ isDigitC y3 ∧ isDigitC y4 ∧ h1 = '-' ∧
          isDigitC m1 ∧ isDigitC m2 ∧ h2 = '-' ∧ isDigitC d1 ∧ isDigitC d2 := by
        simpa using hds
      obtain ⟨c1, c2, c3, c4, rfl, c5, c6, rfl, c7, c8⟩ := hc
      intro c hc
      simp only [List.mem_cons, List.not_mem_nil, or_false] at hc
      rcases hc with rfl | rfl | rfl | rfl | rfl | rfl | rfl | rfl | rfl | rfl
      · exact digit_not_hostile c c1
      · exact digit_not_hostile c c2
      · exact digit_not_hostile c c3
      · exact digit_not_hostile c c4
      · decide
      · exact digit_not_hostile c c5
      · exact digit_not_hostile c c6
      · decide
      · exact digit_not_hostile c c7
      · exact digit_not_hostile c c8
    · simp at hds
  · rw [if_neg (by simpa using hv)] at h
    simp at h

theorem collapseWsAux_mem {c : Char} :
    ∀ (b : Bool) (l : List Char), c ∈ collapseWsAux b l → c = ' ' ∨ c ∈ l := by
  intro b l
  induction l generalizing b with
  | nil => simp [collapseWsAux]
  | cons a l ih =>
    intro hc
    unfold collapseWsAux at hc
    by_cases hw : jsWhitespace a = true
    · rw [if_pos hw] at hc
      cases b with
      | true =>
        rcases ih true hc with h | h
        · exact Or.inl h
        · exact Or.inr (by simp [h])
      | false =>
        rcases List.mem_cons.mp hc with rfl | hc'
        · exact Or.inl rfl
        · rcases ih true hc' with h | h
          · exact Or.inl h
          · exact Or.inr (by simp [h])
    · rw [if_neg hw] at hc
      rcases List.mem_cons.mp hc with rfl | hc'
      · exact Or.inr (by simp)
      · rcases ih false hc' with h | h
        · exact Or.inl h
        · exact Or.inr (by simp [h])

theorem trimJs_subset (l : List Char) : trimJs l ⊆ l := by
  intro c hc
  unfold trimJs at hc
  rw [List.mem_reverse] at hc
  have h1 := (List.dropWhile_sublist (l := (l.dropWhile jsWhitespace).reverse)
    jsWhitespace).subset hc
  rw [List.mem_reverse] at h1
  exact (List.dropWhile_sublist jsWhitespace).subset h1

theorem sanitizeTitle_not_hostile (t : List Char) :
    ∀ c ∈ sanitizeTitle t, hostileChar c = false := by
  intro c hc
  unfold sanitizeTitle at hc
  have h1 := List.take_subset 50 _ hc
  have h2 := trimJs_subset _ h1
  rcases collapseWsAux_mem false _ h2 with rfl | h3
  · decide
  · rw [List.mem_map] at h3
    obtain ⟨a, _, rfl⟩ := h3
    by_cases ha : hostileChar a = true
    · rw [if_pos ha]; decide
    · rw [if_neg ha]
      exact Bool.not_eq_true _ |>.mp ha

theorem sanitizeTitle_length (t : List Char) : (sanitizeTitle t).length ≤ 50 :=
  List.length_take_le _ _

theorem md_not_hostile : ∀ c ∈ ".md".toList, hostileChar c = false := by decide

theorem generateFilename_not_hostile {used : List (List Char)} {e : Entry}
    {fn : List Char} {used' : List (List Char)}
    (h : generateFilename used e = some (fn, used'))
    (hu : ∀ c ∈ (e.uuid.getD []).take 8, hostileChar c = false) :
    ∀ c ∈ fn, hostileChar c = false := by
  unfold generateFilename at h
  cases hdate : toISODateStr (e.creationDate.getD []) with
  | none => rw [hdate] at h; simp at h
  | some dateStr =>
    rw [hdate] at h
    dsimp only at h
    have hdc := toISODateStr_not_hostile hdate
    have hsuffix : ∀ u : List Char, (∀ c ∈ u.take 8, hostileChar c = false) →
        ∀ (base : List Char), (∀ c ∈ base, hostileChar c = false) →
        ∀ c ∈ base ++ " (".toList ++ u.take 8 ++ ")".toList ++ ".md".toList,
          hostileChar c = false := by
      intro u hu8 base hbase
      exact hostile_append (hostile_append (hostile_append (hostile_append hbase
        (by decide)) hu8) (by decide)) md_not_hostile
    cases ht : extractTitle e.text with
    | some t =>
      rw [ht] at h
      dsimp only at h
      by_cases hte : t.isEmpty = true
      · rw [if_pos hte] at h
        dsimp only at h
        cases huu : e.uuid with
        | none => rw [huu] at h; simp at h
        | some u =>
          rw [huu] at h
          dsimp only at h
          have hu8 : ∀ c ∈ u.take 8, hostileChar c = false := by
            simpa [huu] using hu
          have hbase : ∀ c ∈ dateStr ++ ' ' :: u.take 8, hostileChar c = false :=
            hostile_append hdc (hostile_cons (by decide) hu8)
          by_cases hmem : dateStr ++ ' ' :: u.take 8 ++ ".md".toList ∈ used
          · rw [if_pos (by simpa using hmem)] at h
            obtain rfl : _ = fn := congrArg Prod.fst (Option.some.inj h)
            exact hsuffix u hu8 _ hbase
          · rw [if_neg (by simpa using hmem)] at h
            obtain rfl : _ = fn := congrArg Prod.fst (Option.some.inj h)
            exact hostile_append hbase md_not_hostile
      · rw [if_neg hte] at h
        dsimp only at h
        have hbase : ∀ c ∈ dateStr ++ ' ' :: sanitizeTitle t, hostileChar c = false :=
          hostile_append hdc (hostile_cons (by decide) (sanitizeTitle_not_hostile t))
        by_cases hmem : dateStr ++ ' ' :: sanitizeTitle t ++ ".md".toList ∈ used
        · rw [if_pos (by simpa using hmem)] at h
          cases huu : e.uuid with
          | none => rw [huu] at h; simp at h
          | some u =>
            rw [huu] at h
            dsimp only at h
            obtain rfl : _ = fn := congrArg Prod.fst (Option.some.inj h)
            exact hsuffix u (by simpa [huu] using hu) _ hbase
        · rw [if_neg (by simpa using hmem)] at h
          obtain rfl : _ = fn := congrArg Prod.fst (Option.some.inj h)
          exact hostile_append hbase md_not_hostile
    | none =>
      rw [ht] at h
      dsimp only at h
      cases huu : e.uuid with
      | none => rw [huu] at h; simp at h
      | some u =>
        rw [huu] at h
        dsimp only at h
        have hu8 : ∀ c ∈ u.take 8, hostileChar c = false := by
          simpa [huu] using hu
        have hbase : ∀ c ∈ dateStr ++ ' ' :: u.take 8, hostileChar c = false :=
          hostile_append hdc (hostile_cons (by decide) hu8)
        by_cases hmem : dateStr ++ ' ' :: u.take 8 ++ ".md".toList ∈ used
        · rw [if_pos (by simpa using hmem)] at h
          obtain rfl : _ = fn := congrArg Prod.fst (Option.some.inj h)
          exact hsuffix u hu8 _ hbase
        · rw [if_neg (by simpa using hmem)] at h
          obtain rfl : _ = fn := congrArg Prod.fst (Option.some.inj h)
          exact hostile_append hbase md_not_hostile

/-! ## Lemmas on the weather block -/

theorem entryWrites_mediaWritesOf (files : List ZFile) :
    entryWrites (mediaWritesOf files) = [] := by
  unfold mediaWritesOf
  induction files.filter isMediaFile with
  | nil => rfl
  | cons f fs ih => simp only [List.map_cons, entryWrites, List.filter_cons] at ih ⊢; simp [ih]

/-! ## Claim C1 -/

/-- C1 counterexample: with deduplication enabled, running the entries
`(u, a)`, `(u, b)`, `(u, a)` skips nothing — although the third entry's
body fingerprint equals the fingerprint first recorded for identifier
`u` (shown by the one-entry run), so first-occurrence-wins semantics
would skip it.  `recordEntry` overwrites on every conversion. -/
theorem C1_counterexample :
    ((convertEntries false {} [entryUA]).map
        (fun st => mapGet "u".toList st.seenEntries)) =
      Except.ok (some (hashString "a".toList)) ∧
    entryUA.text.getD [] = "a".toList ∧
    ((convertEntries false {} [entryUA, entryUB, entryUA]).map
        (fun st => (st.skippedDuplicates, st.converted))) = Except.ok (0, 3) := by
  refine ⟨?_, ?_, ?_⟩ <;> rfl

/-- C1 (amended): with deduplication enabled and a truthy identifier, an
entry is skipped iff its body fingerprint equals the fingerprint **most
recently** recorded for that identifier, and `recordEntry` (re-)records
the entry's fingerprint, overwriting any earlier one — last conversion
wins, not first occurrence. -/
theorem C1_dedup_last_recorded (seen : SeenMap) (e : Entry)
    (hu : truthyStr e.uuid = true) :
    (shouldSkipDuplicate false seen e = true ↔
      mapGet (e.uuid.getD []) seen = some (hashString (e.text.getD []))) ∧
    mapGet (e.uuid.getD []) (recordEntry seen e) =
      some (hashString (e.text.getD [])) := by
  constructor
  · unfold shouldSkipDuplicate
    rw [if_neg (by simp)]
    rw [if_neg (by simp [hu])]
    dsimp only
    cases hm : mapGet (e.uuid.getD []) seen with
    | none => simp
    | some h => simp
  · unfold recordEntry
    rw [if_neg (by simp [hu])]
    exact mapGet_set_same _ _ _

/-- C1 witness: instantiating the amended dedup law at `entryUA` over a
map holding the hash of `b` for `u`. -/
theorem C1_witness :
    (shouldSkipDuplicate false seenUB entryUA = true ↔
      mapGet (entryUA.uuid.getD []) seenUB =
        some (hashString (entryUA.text.getD []))) ∧
    mapGet (entryUA.uuid.getD []) (recordEntry seenUB entryUA) =
      some (hashString (entryUA.text.getD [])) :=
  C1_dedup_last_recorded seenUB entryUA (by decide)

/-! ## Claim C2 -/

/-- C2: `convertImageReferences` rewrites a well-formed placeholder
`![](dayone-moment://ID)` (ID non-empty upper-hex) into the registered
`![[<fingerprint>.<kind>]]` link or a missing-media HTML comment and
continues after it; text at no position of which the pattern matches is
returned unchanged; in particular an unregistered `ABC123` yields the
comment naming it and a registered `f00d`/`jpeg` yields `![[f00d.jpeg]]`. -/
theorem C2_image_reference_rewrite (pm : PhotoMap) (id rest text : List Char)
    (hid : id ≠ []) (hhex : ∀ c ∈ id, isUpperHex c = true)
    (hnm : ∀ v ∈ text.tails, matchPlaceholder v = none) :
    convertImageReferences pm (placeholderHead ++ id ++ ')' :: rest) =
      placeholderReplacement pm id ++ convertImageReferences pm rest ∧
    convertImageReferences pm text = text ∧
    convertImageReferences [] "![](dayone-moment://ABC123)".toList =
      "<!-- Missing media: ABC123 -->".toList ∧
    convertImageReferences pmABC "![](dayone-moment://ABC123)".toList =
      "![[f00d.jpeg]]".toList := by
  refine ⟨cir_step_match pm (matchPlaceholder_at id rest hid hhex),
    cir_id pm text hnm, ?_, ?_⟩ <;> rfl

/-- C2 witness: the rewrite law instantiated at identifier `AB` and at a
text whose placeholder identifier is lower-case (left untouched). -/
theorem C2_witness :
    convertImageReferences pmABC (placeholderHead ++ "AB".toList ++ ')' :: []) =
      placeholderReplacement pmABC "AB".toList ++ convertImageReferences pmABC [] ∧
    convertImageReferences pmABC textLowercaseId = textLowercaseId ∧
    convertImageReferences [] "![](dayone-moment://ABC123)".toList =
      "<!-- Missing media: ABC123 -->".toList ∧
    convertImageReferences pmABC "![](dayone-moment://ABC123)".toList =
      "![[f00d.jpeg]]".toList :=
  C2_image_reference_rewrite pmABC "AB".toList [] textLowercaseId
    (by decide) (by decide) (by decide)

/-! ## Claim C3 -/

/-- C3 counterexample: unescaping is **not** idempotent — on the three
characters backslash-backslash-dot the first pass yields backslash-dot
and a second pass strips again. -/
theorem C3_counterexample :
    unescapeDayoneMarkdown (unescapeDayoneMarkdown "\\\\.".toList) ≠
      unescapeDayoneMarkdown "\\\\.".toList := by decide

/-- C3 (amended): one unescaping pass over a text consisting solely of
backslash-escaped recognised marks yields exactly the marks with no
leading backslash, and on such texts unescaping is idempotent (the output
is backslash-free); general idempotence fails. -/
theorem C3_unescape_roundtrip (ps : List Char) (h : ∀ c ∈ ps, c ∈ dayoneMarks) :
    unescapeDayoneMarkdown (escapePairs ps) = ps ∧
    unescapeDayoneMarkdown (unescapeDayoneMarkdown (escapePairs ps)) =
      unescapeDayoneMarkdown (escapePairs ps) := by
  have h1 := unescape_escapePairs ps h
  refine ⟨h1, ?_⟩
  rw [h1]
  exact unescape_of_no_backslash ps (fun a ha => marks_no_backslash a (h a ha))

/-- C3 witness: the round-trip law at the escaped text for `#-`. -/
theorem C3_witness :
    unescapeDayoneMarkdown (escapePairs "#-".toList) = "#-".toList ∧
    unescapeDayoneMarkdown (unescapeDayoneMarkdown (escapePairs "#-".toList)) =
      unescapeDayoneMarkdown (escapePairs "#-".toList) :=
  C3_unescape_roundtrip "#-".toList (by decide)

/-! ## Claim C4 -/

/-- C4 counterexample: with deduplication disabled, three identical
titled entries produce three `entries/` writes but only **two** distinct
paths (the disambiguated name is not re-checked against the used set), so
the output archive does not contain one file per input entry. -/
theorem C4_counterexample :
    ((convert true zipC4).map (fun st =>
      ((entryWrites st.writes).length, (entryWrites st.writes).dedup.length))) =
      Except.ok (3, 2) ∧
    ((zipC4.head?.bind ZFile.parsed).map
      (fun jd => (jd.entries.getD []).length)) = some 3 := by
  refine ⟨?_, ?_⟩ <;> rfl

/-- C4 (amended): with deduplication disabled, a successful run converts
and counts every entry with no skips and issues exactly one `entries/`
write per input entry; writes of entries sharing date, title, and
identifier prefix can target the same path, so the archive (one file per
distinct path) may contain fewer files than entries. -/
theorem C4_no_dedup_all_converted (files : List ZFile) (jf : ZFile)
    (rest : List ZFile) (jd : JournalData) (st : RunState)
    (hjson : files.filter (fun f => ".json".toList.isSuffixOf f.name) = jf :: rest)
    (hp : jf.parsed = some jd)
    (h : convert true files = Except.ok st) :
    st.converted = (jd.entries.getD []).length ∧
    st.skippedDuplicates = 0 ∧
    (entryWrites st.writes).length = (jd.entries.getD []).length := by
  unfold convert at h
  rw [hjson] at h
  dsimp only at h
  rw [hp] at h
  dsimp only at h
  have hc := convertEntries_true_counts _ _ _ h
  simpa [entryWrites_mediaWritesOf] using hc

/-- C4 witness: the amended statement at the two-copy run of `entryT`. -/
theorem C4_witness :
    stC4w.converted = (some [entryT, entryT] |>.getD [] |>.length) ∧
    stC4w.skippedDuplicates = 0 ∧
    (entryWrites stC4w.writes).length = (some [entryT, entryT] |>.getD [] |>.length) :=
  C4_no_dedup_all_converted (zipOf [entryT, entryT]) jfTwoT []
    { entries := some [entryT, entryT] } stC4w (by rfl) (by rfl) (by rfl)

/-! ## Claim C5 -/

/-- C5 counterexample: a PDF attachment carrying an explicit kind field
`docx` is registered with kind `pdf` — the explicit kind is ignored for
the pdf category, contradicting the claimed override for every category. -/
theorem C5_counterexample :
    mapGet "D1".toList (buildPhotoMap [] entryMedia) =
      some ⟨"dddd".toList, "pdf".toList⟩ ∧
    mapGet "D1".toList (buildPhotoMap [] entryMedia) ≠
      some ⟨"dddd".toList, "docx".toList⟩ := by
  constructor <;> decide

/-- C5 (amended): the Media Indexer registers each attachment with its
fingerprint and a per-category default kind (photo→jpeg, video→mov,
audio→m4a) overridden by a truthy explicit kind field — except PDF
attachments, which are always registered with kind `pdf`, their explicit
kind field being ignored. -/
theorem C5_media_indexer_kinds (pm : PhotoMap) (p v a d : Photo)
    (hvp : v.identifier ≠ p.identifier) (hap : a.identifier ≠ p.identifier)
    (hdp : d.identifier ≠ p.identifier) (hav : a.identifier ≠ v.identifier)
    (hdv : d.identifier ≠ v.identifier) (hda : d.identifier ≠ a.identifier) :
    mapGet p.identifier (buildPhotoMap pm
        { photos := some [p], videos := some [v], audios := some [a],
          pdfAttachments := some [d] }) =
      some ⟨p.md5, jsOrStr p.type "jpeg".toList⟩ ∧
    mapGet v.identifier (buildPhotoMap pm
        { photos := some [p], videos := some [v], audios := some [a],
          pdfAttachments := some [d] }) =
      some ⟨v.md5, jsOrStr v.type "mov".toList⟩ ∧
    mapGet a.identifier (buildPhotoMap pm
        { photos := some [p], videos := some [v], audios := some [a],
          pdfAttachments := some [d] }) =
      some ⟨a.md5, jsOrStr a.type "m4a".toList⟩ ∧
    mapGet d.identifier (buildPhotoMap pm
        { photos := some [p], videos := some [v], audios := some [a],
          pdfAttachments := some [d] }) =
      some ⟨d.md5, "pdf".toList⟩ := by
  have hshape : buildPhotoMap pm
      { photos := some [p], videos := some [v], audios := some [a],
        pdfAttachments := some [d] } =
      mapSet d.identifier ⟨d.md5, "pdf".toList⟩
        (mapSet a.identifier ⟨a.md5, jsOrStr a.type "m4a".toList⟩
          (mapSet v.identifier ⟨v.md5, jsOrStr v.type "mov".toList⟩
            (mapSet p.identifier ⟨p.md5, jsOrStr p.type "jpeg".toList⟩ pm))) := by
    rfl
  rw [hshape]
  refine ⟨?_, ?_, ?_, ?_⟩
  · rw [mapGet_set_ne _ _ _ _ hdp, mapGet_set_ne _ _ _ _ hap,
      mapGet_set_ne _ _ _ _ hvp, mapGet_set_same]
  · rw [mapGet_set_ne _ _ _ _ hdv, mapGet_set_ne _ _ _ _ hav, mapGet_set_same]
  · rw [mapGet_set_ne _ _ _ _ hda, mapGet_set_same]
  · rw [mapGet_set_same]

/-- C5 witness: the four registration laws at one concrete attachment of
each category (explicit `png` kind, absent kind, empty kind, `docx` on a
PDF). -/
theorem C5_witness :
    mapGet photoW.identifier (buildPhotoMap []
        { photos := some [photoW], videos := some [videoW], audios := some [audioW],
          pdfAttachments := some [pdfW] }) =
      some ⟨photoW.md5, jsOrStr photoW.type "jpeg".toList⟩ ∧
    mapGet videoW.identifier (buildPhotoMap []
        { photos := some [photoW], videos := some [videoW], audios := some [audioW],
          pdfAttachments := some [pdfW] }) =
      some ⟨videoW.md5, jsOrStr videoW.type "mov".toList⟩ ∧
    mapGet audioW.identifier (buildPhotoMap []
        { photos := some [photoW], videos := some [videoW], audios := some [audioW],
          pdfAttachments := some [pdfW] }) =
      some ⟨audioW.md5, jsOrStr audioW.type "m4a".toList⟩ ∧
    mapGet pdfW.identifier (buildPhotoMap []
        { photos := some [photoW], videos := some [videoW], audios := some [audioW],
          pdfAttachments := some [pdfW] }) =
      some ⟨pdfW.md5, "pdf".toList⟩ :=
  C5_media_indexer_kinds [] photoW videoW audioW pdfW
    (by decide) (by decide) (by decide) (by decide) (by decide) (by decide)

/-! ## Claim C6 -/

/-- C6: a single entry lacking both an extractable title and an
identifier **does** abort the whole conversion: `generateFilename`
reaches `entry.uuid.slice` with an undefined `uuid` (modelled `none`) and
the thrown TypeError propagates out of the entry loop, so the following
well-formed entry is never converted — contradicting the claim that
per-entry recoverable issues never abort the run. -/
theorem C6_missing_uuid_aborts_run :
    generateFilename [] entryNoId = none ∧
    convert false zipC6 = Except.error typeErrMsg := by
  refine ⟨?_, ?_⟩ <;> rfl

/-! ## Claim C7 -/

/-- C7 counterexample: an entry with no extractable title and identifier
`a/bcdefgh` resolves to the filename `2024-01-15 a/bcdefg.md`, which
contains the filesystem-hostile character `/` — the identifier fragment
is inserted unsanitised. -/
theorem C7_counterexample :
    (generateFilename [] entryHostileId).map Prod.fst =
      some "2024-01-15 a/bcdefg.md".toList ∧
    '/' ∈ "2024-01-15 a/bcdefg.md".toList ∧ hostileChar '/' = true := by
  refine ⟨by rfl, by decide, by rfl⟩

/-- C7 (amended): every resolved filename is free of the characters
`/ \ : * ? " < > |` **provided** the first eight characters of the
entry's identifier are (true for Day One's hex UUIDs; the fragment itself
is not sanitised), and the sanitised title portion never exceeds 50
characters and never contains a hostile character. -/
theorem C7_filename_safety (used : List (List Char)) (e : Entry) (fn : List Char)
    (used' : List (List Char)) (t : List Char)
    (h : generateFilename used e = some (fn, used'))
    (hu : ∀ c ∈ (e.uuid.getD []).take 8, hostileChar c = false) :
    (∀ c ∈ fn, hostileChar c = false) ∧
    (sanitizeTitle t).length ≤ 50 ∧
    (∀ c ∈ sanitizeTitle t, hostileChar c = false) :=
  ⟨generateFilename_not_hostile h hu, sanitizeTitle_length t,
    sanitizeTitle_not_hostile t⟩

/-- C7 witness: the safety law at `entryT` and a title stuffed with
hostile characters and padding beyond fifty characters. -/
theorem C7_witness :
    (∀ c ∈ "2024-01-15 T.md".toList, hostileChar c = false) ∧
    (sanitizeTitle "a/b:c*d?e\"f<g>h|iiiiiiiiiiiiiiiiiiiiiiiiiiiiiiiiiiiiiiiiiiiiii".toList).length ≤ 50 ∧
    (∀ c ∈ sanitizeTitle "a/b:c*d?e\"f<g>h|iiiiiiiiiiiiiiiiiiiiiiiiiiiiiiiiiiiiiiiiiiiiii".toList,
      hostileChar c = false) :=
  C7_filename_safety [] entryT "2024-01-15 T.md".toList ["2024-01-15 T.md".toList]
    "a/b:c*d?e\"f<g>h|iiiiiiiiiiiiiiiiiiiiiiiiiiiiiiiiiiiiiiiiiiiiii".toList
    (by rfl) (by decide)

/-! ## Claim C8 -/

/-- C8: when an entry is skipped as a duplicate, the loop iteration
returns the state with only the skipped-duplicates counter incremented by
one — the photo map, used-filename set, dedup map, converted counter, and
write list are all untouched, and no output file, filename, or
frontmatter work happens for the entry. -/
theorem C8_skip_frame (allowDuplicates : Bool) (st : RunState) (e : Entry)
    (h : shouldSkipDuplicate allowDuplicates st.seenEntries e = true) :
    convertStep allowDuplicates st e =
      Except.ok { st with skippedDuplicates := st.skippedDuplicates + 1 } := by
  unfold convertStep
  rw [if_pos h]

/-- C8 witness: the frame law at a state that has already recorded
`entryUA`'s fingerprint. -/
theorem C8_witness :
    convertStep false stSeenUA entryUA =
      Except.ok { stSeenUA with skippedDuplicates := stSeenUA.skippedDuplicates + 1 } :=
  C8_skip_frame false stSeenUA entryUA (by decide)

/-! ## Claim C9 -/

/-- C10: an archive holding a JSON file whose parsed record lacks the
`entries` array converts successfully with zero entries, producing only
the `attachments/` copies; the malformed-archive error is raised exactly
when no file name ends in `.json`. -/
theorem C10_missing_entries_array (ad : Bool) (files : List ZFile) (jf : ZFile)
    (rest : List ZFile)
    (hjson : files.filter (fun f => ".json".toList.isSuffixOf f.name) = jf :: rest)
    (hp : jf.parsed = some { entries := none }) :
    convert ad files = Except.ok { writes := mediaWritesOf files } ∧
    entryWrites (mediaWritesOf files) = [] ∧
    (∀ files' : List ZFile, convert ad files' = Except.error noJsonMsg ↔
      files'.filter (fun f => ".json".toList.isSuffixOf f.name) = []) := by
  refine ⟨?_, entryWrites_mediaWritesOf files, ?_⟩
  · unfold convert
    rw [hjson]
    dsimp only
    rw [hp]
    dsimp only
    rfl
  · intro files'
    cases hj : files'.filter (fun f => ".json".toList.isSuffixOf f.name) with
    | nil =>
      constructor
      · intro _; rfl
      · intro _
        unfold convert
        rw [hj]
    | cons jf' rest' =>
      simp only [reduceCtorEq, iff_false]
      intro hconv
      unfold convert at hconv
      rw [hj] at hconv
      dsimp only at hconv
      cases hpj : jf'.parsed with
      | none =>
        rw [hpj] at hconv
        have : parseErrMsg = noJsonMsg := by simpa using hconv
        exact absurd this (by decide)
      | some jd =>
        rw [hpj] at hconv
        dsimp only at hconv
        have := convertEntries_error _ _ hconv
        exact absurd this (by decide)

/-- C10 witness: at a concrete archive holding an entries-free JSON file
and one media file, plus the empty archive for the error direction. -/
theorem C10_witness :
    convert false zipC10 = Except.ok { writes := mediaWritesOf zipC10 } ∧
    entryWrites (mediaWritesOf zipC10) = [] ∧
    (convert false ([] : List ZFile) = Except.error noJsonMsg ↔
      ([] : List ZFile).filter (fun f => ".json".toList.isSuffixOf f.name) = []) := by
  have h := C10_missing_entries_array false zipC10 jfNoEntries [] (by rfl) (by rfl)
  exact ⟨h.1, h.2.1, h.2.2 []⟩

end DayOne
